import Mathlib

/-!
# Verification of the kd_mass_demo multi-agent simulation

Shallow embedding of the repository's three Python modules
(`utils.py`, `agent.py`, `app.py`) and proofs of the specification
claims about them.

Conventions of the embedding:
* Python strings are Lean `String`s; Python `s.strip()` is `pyStrip`,
  Python `t in d` (substring test) is infix containment of the
  character lists, Python `query.split()` is `splitWs` (splitting on
  whitespace, discarding empty pieces).
* The external text-generation client (`client.chat.completions.create`)
  is an oracle `LLM : List Message → Except String String`; a raised
  exception is the `Except.error` case carrying `repr(e)`.
* The file system seen by `os.walk` / `os.path.isdir` is an environment
  `FS : String → Folder` giving, for a folder path, whether it is a
  directory and the recursively walked file entries in walk order;
  each entry carries the basename, the joined full path, and the result
  of opening/reading it (`Except.error` = the raised exception's text).
* The stateful orchestrator loop of `app.py` is explicit state passing:
  the mutated `agents` list, `messages_log` and `global_context` are
  threaded through `runAgents` (the inner `for agent in agents` loop)
  and `runRounds` (the outer `for t in range(turns)` loop).
-/

/-! ## Python string primitives

The Lean core versions of `trim`, `toLower` and `splitOn` are defined by
well-founded recursion over byte positions, which the kernel cannot
evaluate; the Python string methods used by the code are therefore
modelled by the following structural recursions over the character
list. -/

/-- Drops leading whitespace characters. -/
def dropLeadingWs : List Char → List Char
  | [] => []
  | c :: cs => if c.isWhitespace then dropLeadingWs cs else c :: cs

/-- Python `s.strip()` (no argument): removes leading and trailing
whitespace. -/
def pyStrip (s : String) : String :=
  String.mk ((dropLeadingWs (dropLeadingWs s.data).reverse).reverse)

/-- Python `s.lower()` (for the ASCII extension strings it is applied to). -/
def pyLower (s : String) : String :=
  String.mk (s.data.map Char.toLower)

/-- Splitting on `'.'`, accumulating the current (reversed) piece:
Python `s.split(".")` / the piece structure used by `os.path.splitext`. -/
def splitOnDotAux : List Char → List Char → List String
  | [], acc => [String.mk acc.reverse]
  | c :: cs, acc =>
    if c = '.' then String.mk acc.reverse :: splitOnDotAux cs []
    else splitOnDotAux cs (c :: acc)

/-- The pieces of a string between its dots (`["" ]` for the empty string). -/
def splitOnDot (s : String) : List String :=
  splitOnDotAux s.data []

/-! ## utils.py: simple_keyword_retrieval -/

/-- Python `t in d`: `t` occurs as a contiguous substring of `d`. -/
def strIn (t d : String) : Bool :=
  decide (t.data <:+: d.data)

/-- Splitting a character list on runs of whitespace, accumulating the
current (reversed) token: Python `str.split()` with no argument, which
never yields empty tokens. -/
def splitWsAux : List Char → List Char → List String
  | [], acc => if acc.isEmpty then [] else [String.mk acc.reverse]
  | c :: cs, acc =>
    if c.isWhitespace then
      if acc.isEmpty then splitWsAux cs []
      else String.mk acc.reverse :: splitWsAux cs []
    else splitWsAux cs (c :: acc)

/-- Python `query.split()`: whitespace-separated tokens, empties never
produced. -/
def splitWs (query : String) : List String :=
  splitWsAux query.data []

/-- Python `set(query.split())`: the whitespace-split tokens with
duplicates removed (only the count of the set is ever used, so the order
of the deduplicated list is immaterial). -/
def qTokens (query : String) : List String :=
  (splitWs query).dedup

/-- The score loop body of `simple_keyword_retrieval`: the number of
distinct query tokens `t` with `t and t in d`. -/
def score (toks : List String) (d : String) : Nat :=
  (toks.filter (fun t => decide (t ≠ "") && strIn t d)).length

/-- Insertion step of a stable descending sort on scored documents:
`x` is placed after every already-sorted element with a strictly larger
key and before the first element whose key is `≤` its own. -/
def insertScoredDesc (x : Nat × String) : List (Nat × String) → List (Nat × String)
  | [] => [x]
  | y :: ys => if x.1 < y.1 then y :: insertScoredDesc x ys else x :: y :: ys

/-- Python `scored.sort(key=lambda x: x[0], reverse=True)`: a stable sort
by descending score (CPython's sort is stable and `reverse=True` keeps
equal-keyed elements in their original relative order). -/
def sortScoredDesc : List (Nat × String) → List (Nat × String)
  | [] => []
  | x :: xs => insertScoredDesc x (sortScoredDesc xs)

/-- `utils.simple_keyword_retrieval(docs, query, top_k)`. -/
def simple_keyword_retrieval (docs : List String) (query : String)
    (top_k : Nat := 3) : List String :=
  if docs = [] ∨ query = "" then []
  else
    let q_tokens := qTokens query
    let scored := (docs.map (fun d => (score q_tokens d, d))).filter
      (fun p => decide (0 < p.1))
    if scored = [] then docs.take top_k
    else ((sortScoredDesc scored).take top_k).map Prod.snd

/-! ## utils.py: load_text_files_from_folder -/

instance {α β : Type} [DecidableEq α] [DecidableEq β] :
    DecidableEq (Except α β) := fun a b =>
  match a, b with
  | Except.ok x, Except.ok y => decidable_of_iff (x = y) (by simp)
  | Except.ok _, Except.error _ => isFalse (by simp)
  | Except.error _, Except.ok _ => isFalse (by simp)
  | Except.error x, Except.error y => decidable_of_iff (x = y) (by simp)

/-- One file met by `os.walk`: its basename, its joined full path, and
the outcome of `open(...).read()` on it. -/
structure FileEntry where
  fname : String
  full_path : String
  readResult : Except String String
deriving DecidableEq, Repr

/-- What the OS reports for one folder path: whether `os.path.isdir`
holds, and the recursively walked file entries in walk order. -/
structure Folder where
  isDir : Bool
  files : List FileEntry
deriving DecidableEq, Repr

/-- The file-system environment (absorbs `os.path.expanduser` and the
OS-determined, but fixed within a run, `os.walk` order). -/
def FS : Type := String → Folder

/-- `os.path.splitext(fname)[1]` for a basename: the suffix from the last
dot, except that a name whose every character before its last dot is a
dot has an empty extension (Python's leading-dot rule). -/
def splitext_ext (fname : String) : String :=
  let parts := splitOnDot fname
  if parts.length ≤ 1 then ""
  else if parts.dropLast.all (fun s => s = "") then ""
  else "." ++ parts.getLastD ""

/-- The recognized plain-text extensions, `exts = {".txt", ".md", ".log"}`. -/
def exts : List String := [".txt", ".md", ".log"]

/-- `utils.load_text_files_from_folder(folder_path)` over a file-system
environment `fs`. -/
def load_text_files_from_folder (fs : FS) (folder_path : String) : List String :=
  if folder_path = "" then []
  else if (fs folder_path).isDir then
    (fs folder_path).files.foldl (fun docs f =>
      if pyLower (splitext_ext f.fname) ∈ exts then
        match f.readResult with
        | Except.ok raw =>
          if pyStrip raw = "" then docs
          else docs ++ ["【文件：" ++ f.fname ++ "】\n" ++ pyStrip raw]
        | Except.error e => docs ++ ["【读取失败：" ++ f.full_path ++ "】" ++ e]
      else docs) []
  else []

/-! ## utils.py: call_llm -/

/-- One role-tagged chat message (a Python `{"role": ..., "content": ...}` dict). -/
structure Message where
  role : String
  content : String
deriving DecidableEq, Repr

/-- The external text-generation client: `Except.ok` is the returned
`completion.choices[0].message.content`, `Except.error` carries `repr(e)`
of the raised exception. -/
def LLM : Type := List Message → Except String String

/-- `utils.call_llm(messages)`: returns the completion's text, or, when the
client raises, the exception formatted into a visible string instead of
propagating. -/
def call_llm (llm : LLM) (messages : List Message) : String :=
  match llm messages with
  | Except.ok content => content
  | Except.error e => "[LLM 调用出错：" ++ e ++ "]"

/-! ## agent.py -/

/-- `agent.AgentConfig`. -/
structure AgentConfig where
  name : String
  short_name : String
  role_description : String
  strategic_preferences : String
  knowledge : String
  knowledge_mode : String := "inline"
  knowledge_folder : String := ""
deriving DecidableEq, Repr

/-- `agent.Agent`: configuration, private history, private knowledge base. -/
structure Agent where
  config : AgentConfig
  history : List Message
  docs : List String
deriving DecidableEq, Repr

/-- `Agent.__init__`: empty history; docs are the inline knowledge (when
non-empty) followed by the folder docs (when mode is `"folder"` and a
folder path is given). -/
def Agent.init (fs : FS) (config : AgentConfig) : Agent :=
  let docs0 : List String := if config.knowledge = "" then [] else [config.knowledge]
  let docs : List String :=
    if config.knowledge_mode = "folder" ∧ config.knowledge_folder ≠ "" then
      docs0 ++ load_text_files_from_folder fs config.knowledge_folder
    else docs0
  { config := config, history := [], docs := docs }

/-- `Agent._build_system_prompt`: the interpolated triple-quoted template,
then `.strip()` of the whole interpolated string. -/
def Agent.build_system_prompt (a : Agent) : String :=
  pyStrip ("\n你是一名战略博弈推演系统中的智能体，代表的对象为：" ++ a.config.name
    ++ "（代号：" ++ a.config.short_name ++ "）。\n\n【身份与角色】\n"
    ++ a.config.role_description ++ "\n\n【战略偏好与目标】\n"
    ++ a.config.strategic_preferences
    ++ "\n\n【内联背景知识（仅供推理，不要逐条复述）】\n"
    ++ a.config.knowledge
    ++ "\n\n【注意】\n- 如果配置了外部知识库目录，你在推理时也会看到额外检索到的片段。\n- 你要从“"
    ++ a.config.name
    ++ "”的立场进行思考和表态，不要扮演第三方评论员。\n- 回答时请专注于给出本方在当前局势下的策略立场与行动建议。\n- 用简洁中文表达，可附带 1–2 句推理说明，但不要长篇论文式分析。\n- 不要替其他主体发言，不要写剧本式对话。\n        ")

/-- `Agent._retrieve_for_round`. -/
def Agent.retrieve_for_round (a : Agent) (global_context : String) : String :=
  if a.docs = [] then ""
  else
    let top_docs := simple_keyword_retrieval a.docs global_context 3
    if top_docs = [] then ""
    else "【以下是与你方相关的检索到的背景材料片段（仅供内部推理，不要直接照抄原文）：】\n"
      ++ String.intercalate "\n\n------\n\n" top_docs

/-- `Agent.act(global_context)`: builds `[system] ++ history ++ [user]`,
calls the service through `call_llm`, appends the reply to its own
history, and returns the reply (paired with the updated agent, which
models the in-place mutation of `self.history`). -/
def Agent.act (llm : LLM) (a : Agent) (global_context : String) : String × Agent :=
  let kb_text := a.retrieve_for_round global_context
  let user_content :=
    "【当前多方博弈局势与其他主体近期动态】\n" ++ global_context ++ "\n\n"
    ++ (if kb_text = "" then "" else kb_text ++ "\n\n")
    ++ "请基于上述局势以及你所代表主体的利益和偏好，给出你方在本轮的策略立场与行动建议。"
  let messages : List Message :=
    [⟨"system", a.build_system_prompt⟩] ++ a.history ++ [⟨"user", user_content⟩]
  let reply := call_llm llm messages
  (reply, { a with history := a.history ++ [⟨"assistant", reply⟩] })

/-! ## app.py -/

/-- One streamed `{"type":"message","data":{turn,speaker,content}}` payload. -/
structure Msg where
  turn : Nat
  speaker : String
  content : String
deriving DecidableEq, Repr

/-- One line-delimited chunk of the streamed response. -/
inductive Event where
  | message (data : Msg)
  | done (total_messages : Nat)
  | error (data : String)
deriving DecidableEq, Repr

/-- One agent-config entry of the posted JSON, with the `a.get(key, default)`
defaults of `build_agents_from_request`. -/
structure AgentData where
  name : String := ""
  role : String := ""
  strategic_preferences : String := ""
  knowledge : String := ""
  knowledge_mode : String := "inline"
  knowledge_folder : String := ""
deriving DecidableEq, Repr

/-- `app.build_agents_from_request(agents_data)`: one `Agent` per entry
whose stripped name is non-empty; entries with an empty name are skipped. -/
def build_agents_from_request (fs : FS) : List AgentData → List Agent
  | [] => []
  | a :: rest =>
    let name := pyStrip a.name
    if name = "" then build_agents_from_request fs rest
    else
      Agent.init fs
        { name := name
          short_name := name
          role_description := a.role
          strategic_preferences := a.strategic_preferences
          knowledge := a.knowledge
          knowledge_mode := a.knowledge_mode
          knowledge_folder := a.knowledge_folder }
        :: build_agents_from_request fs rest

/-- The initial `global_context` of `generate`. -/
def scenarioLine (scenario : String) : String :=
  if scenario = "" then "场景描述：无（前端未提供）" else "场景描述：" ++ scenario

/-- The f-string appended to `global_context` after each turn
(`f"\n\n[第{turn_idx}轮 {agent.config.name} 发言]: {reply}"`),
as a function of the emitted turn record. -/
def fmtEntry (m : Msg) : String :=
  "\n\n[第" ++ toString m.turn ++ "轮 " ++ m.speaker ++ " 发言]: " ++ m.content

/-- The orchestrator's loop state: the (mutated-in-place) agents,
`messages_log`, and `global_context`. -/
def St : Type := List Agent × List Msg × String

/-- The inner `for agent in agents` loop of one round: `done` accumulates
the already-acted agents of this round. -/
def runAgents (llm : LLM) (turn_idx : Nat) : List Agent → St → St
  | [], st => st
  | agent :: rest, (done, log, ctx) =>
    let (reply, agent') := agent.act llm ctx
    let msg : Msg := ⟨turn_idx, agent.config.name, reply⟩
    runAgents llm turn_idx rest (done ++ [agent'], log ++ [msg], ctx ++ fmtEntry msg)

/-- The outer `for t in range(turns)` loop, with `turn_idx = t + 1`. -/
def runRounds (llm : LLM) : Nat → Nat → St → St
  | _, 0, st => st
  | turn_idx, n + 1, st =>
    runRounds llm (turn_idx + 1) n (runAgents llm turn_idx st.1 ([], st.2.1, st.2.2))

/-- The `generate()` generator body of `simulate_stream`: the yielded
chunks (one `message` per turn then the `done` marker), together with the
final loop state. `range(turns)` of a non-positive Python int is empty,
hence `turns.toNat` iterations. -/
def generate (llm : LLM) (scenario : String) (turns : Int) (agents : List Agent) :
    List Event × St :=
  let st := runRounds llm 1 turns.toNat (agents, [], scenarioLine scenario)
  (st.2.1.map Event.message ++ [Event.done st.2.1.length], st)

/-- The request body posted to `/simulate_stream`. -/
structure SimRequest where
  scenario : String := ""
  turns : Int := 3
  agents : List AgentData := []

/-- `app.simulate_stream`: strips the scenario, builds the agents, answers
HTTP 400 (`Except.error`) when no valid agent remains, and otherwise
streams the `generate()` chunks. -/
def simulate_stream (fs : FS) (llm : LLM) (data : SimRequest) :
    Except String (List Event) :=
  let scenario := pyStrip data.scenario
  let agents := build_agents_from_request fs data.agents
  if agents = [] then Except.error "No valid agents provided."
  else Except.ok (generate llm scenario data.turns agents).1

/-! ## Spec-side definitions and concrete fixtures -/

/-- Concatenation of the lists produced per element (used to state
grouped/ordered forms of results). -/
def catMap {α : Type} {β : Type} (f : α → List β) : List α → List β
  | [] => []
  | a :: l => f a ++ catMap f l

/-- `downFrom n = [n-1, n-2, ..., 0]`: the descending enumeration used to
state "groups in descending score order". -/
def downFrom : Nat → List Nat
  | 0 => []
  | n + 1 => n :: downFrom n

/-- Follows the spec's words for the Retriever (§4.2, §8), written for
comparison with `simple_keyword_retrieval`: the documents with at least
one matching token, grouped by descending count of distinct matching
tokens, the original document order kept inside each group (stable ties),
truncated to `top_k`. -/
def select_spec (docs : List String) (query : String) (top_k : Nat) : List String :=
  let toks := qTokens query
  (catMap
    (fun s => if s = 0 then []
      else docs.filter (fun d => decide (score toks d = s)))
    (downFrom (toks.length + 1))).take top_k

/-- Follows the spec's words for the Knowledge Store (§4.1, amended): the
Documents contributed by one walked file — none when its extension is not
recognized or its stripped content is empty, the tagged content on a
successful read, a visible failure notice on a failed read. -/
def docsOfEntry (f : FileEntry) : List String :=
  if pyLower (splitext_ext f.fname) ∈ exts then
    match f.readResult with
    | Except.ok raw =>
      if pyStrip raw = "" then [] else ["【文件：" ++ f.fname ++ "】\n" ++ pyStrip raw]
    | Except.error e => ["【读取失败：" ++ f.full_path ++ "】" ++ e]
  else []

/-- Context reconstruction from emitted turn records: the concatenation of
the per-turn formatted entries. -/
def ctxEntries : List Msg → String
  | [] => ""
  | m :: ms => fmtEntry m ++ ctxEntries ms

/-- Fixed round-robin order: `n` rounds numbered from `t0`, each round
listing the agent names in their original order. -/
def roundRobin (names : List String) : Nat → Nat → List (Nat × String)
  | _, 0 => []
  | t0, n + 1 => names.map (fun nm => (t0, nm)) ++ roundRobin names (t0 + 1) n

/-- The (round, speaker) projection of a turn record. -/
def projTS (m : Msg) : Nat × String := (m.turn, m.speaker)

/-- The shape of a streamed chunk with message contents erased:
`inl (round, speaker)` for a message, `inr (inl n)` for a done marker,
`inr (inr e)` for an error marker. -/
def eventShape : Event → (Nat × String) ⊕ (Nat ⊕ String)
  | Event.message m => Sum.inl (m.turn, m.speaker)
  | Event.done n => Sum.inr (Sum.inl n)
  | Event.error e => Sum.inr (Sum.inr e)

/-- `K` successive `act` calls of one agent against the given sequence of
global contexts: the final agent state and its replies in order. -/
def actSeq (llm : LLM) : Agent → List String → Agent × List String
  | a, [] => (a, [])
  | a, c :: cs =>
    let p := Agent.act llm a c
    let q := actSeq llm p.2 cs
    (q.1, p.1 :: q.2)

/-- Instrumented loop state: additionally records, in order, the
`global_context` passed to each `act` call. -/
def StI : Type := List Agent × List Msg × String × List String

/-- `runAgents`, instrumented with the contexts passed to `act`. -/
def runAgentsI (llm : LLM) (turn_idx : Nat) : List Agent → StI → StI
  | [], st => st
  | agent :: rest, (done, log, ctx, seen) =>
    let (reply, agent') := agent.act llm ctx
    let msg : Msg := ⟨turn_idx, agent.config.name, reply⟩
    runAgentsI llm turn_idx rest
      (done ++ [agent'], log ++ [msg], ctx ++ fmtEntry msg, seen ++ [ctx])

/-- `runRounds`, instrumented with the contexts passed to `act`. -/
def runRoundsI (llm : LLM) : Nat → Nat → StI → StI
  | _, 0, st => st
  | turn_idx, n + 1, st =>
    runRoundsI llm (turn_idx + 1) n
      (runAgentsI llm turn_idx st.1 ([], st.2.1, st.2.2.1, st.2.2.2))

/-! ## Concrete fixtures for witnesses and counterexamples -/

/-- A file system with no directories at all. -/
def fsEmpty : FS := fun _ => ⟨false, []⟩

/-- A text-generation stub that echoes the content of its last input
message. -/
def echoLLM : LLM := fun msgs => Except.ok ((msgs.getLastD ⟨"user", ""⟩).content)

/-- A text-generation stub that fails on every invocation. -/
def failingLLM : LLM := fun _ => Except.error "APIConnectionError('Connection error.')"

/-- The §8 scenario: `turns=2`, two trivially configured agents "A" and "B". -/
def reqAB : SimRequest :=
  { scenario := "", turns := 2, agents := [{ name := "A" }, { name := "B" }] }

/-- A knowledge folder holding exactly one recognized file whose content
is whitespace only. -/
def fsBlankFile : FS :=
  fun _ => ⟨true, [⟨"a.txt", "/kb/a.txt", Except.ok "   "⟩]⟩

/-- A config with no inline knowledge that points at the knowledge folder. -/
def cfgFolderOnly : AgentConfig :=
  { name := "N", short_name := "N", role_description := "",
    strategic_preferences := "", knowledge := "",
    knowledge_mode := "folder", knowledge_folder := "/kb" }

/-- The `AgentConfig` that `build_agents_from_request` constructs from one
request entry (both name fields get the stripped name). -/
def cfgOfData (a : AgentData) : AgentConfig :=
  { name := pyStrip a.name
    short_name := pyStrip a.name
    role_description := a.role
    strategic_preferences := a.strategic_preferences
    knowledge := a.knowledge
    knowledge_mode := a.knowledge_mode
    knowledge_folder := a.knowledge_folder }

/-- A trivially configured agent named "A" with no knowledge. -/
def agentA : Agent :=
  { config := { name := "A", short_name := "A", role_description := "",
                strategic_preferences := "", knowledge := "" }
    history := []
    docs := [] }

/-! ## Lemmas about the grouped form of the stable descending sort -/

theorem catMap_append {α β : Type} (f : α → List β) (l₁ l₂ : List α) :
    catMap f (l₁ ++ l₂) = catMap f l₁ ++ catMap f l₂ := by
  induction l₁ with
  | nil => rfl
  | cons a l ih => simp [catMap, ih]

theorem mem_catMap {α β : Type} {f : α → List β} {b : β} {l : List α} :
    b ∈ catMap f l ↔ ∃ a ∈ l, b ∈ f a := by
  induction l with
  | nil => simp [catMap]
  | cons a l ih => simp [catMap, ih]

theorem catMap_congr {α β : Type} {f g : α → List β} {l : List α}
    (h : ∀ a ∈ l, f a = g a) : catMap f l = catMap g l := by
  induction l with
  | nil => rfl
  | cons a l ih =>
    simp only [catMap, h a (List.mem_cons_self a l)]
    rw [ih (fun x hx => h x (List.mem_cons_of_mem a hx))]

theorem map_catMap {α β γ : Type} (f : β → γ) (g : α → List β) (l : List α) :
    (catMap g l).map f = catMap (fun a => (g a).map f) l := by
  induction l with
  | nil => rfl
  | cons a l ih => simp [catMap, ih]

theorem mem_downFrom {s n : Nat} : s ∈ downFrom n ↔ s < n := by
  induction n with
  | zero => simp [downFrom]
  | succ n ih => simp [downFrom, ih]; omega

theorem downFrom_split {s n : Nat} (h : s < n) :
    ∃ A, downFrom n = A ++ s :: downFrom s ∧ ∀ a ∈ A, s < a := by
  induction n with
  | zero => omega
  | succ n ih =>
    by_cases hs : s = n
    · subst hs
      exact ⟨[], rfl, by simp⟩
    · obtain ⟨A, hA, hmem⟩ := ih (by omega)
      refine ⟨n :: A, ?_, ?_⟩
      · simp [downFrom, hA]
      · intro a ha
        rcases List.mem_cons.mp ha with rfl | ha
        · omega
        · exact hmem a ha

theorem insertScoredDesc_append (x : Nat × String) (A C : List (Nat × String))
    (hA : ∀ a ∈ A, x.1 < a.1) (hC : ∀ c ∈ C, c.1 ≤ x.1) :
    insertScoredDesc x (A ++ C) = A ++ x :: C := by
  induction A with
  | nil =>
    cases C with
    | nil => rfl
    | cons c cs =>
      have : ¬ x.1 < c.1 := by
        have := hC c (List.mem_cons_self c cs)
        omega
      simp [insertScoredDesc, this]
  | cons a A ih =>
    have hxa : x.1 < a.1 := hA a (List.mem_cons_self a A)
    simp only [List.cons_append, insertScoredDesc, if_pos hxa]
    show a :: insertScoredDesc x (A ++ C) = a :: (A ++ x :: C)
    rw [ih (fun p hp => hA p (List.mem_cons_of_mem a hp))]

/-- The stable descending sort, written as its groups: for any strict
bound `B` on the keys, the sorted list is the concatenation, over the
keys in descending order, of the equal-key sublists in original order. -/
theorem sortScoredDesc_grouped (l : List (Nat × String)) (B : Nat)
    (hB : ∀ p ∈ l, p.1 < B) :
    sortScoredDesc l
      = catMap (fun s => l.filter (fun p => decide (p.1 = s))) (downFrom B) := by
  induction l with
  | nil =>
    have : ∀ n : Nat, catMap (fun _ : Nat => ([] : List (Nat × String)))
        (downFrom n) = [] := by
      intro n
      induction n with
      | zero => rfl
      | succ n ih => simp [downFrom, catMap, ih]
    simp only [sortScoredDesc, List.filter_nil]
    exact (this B).symm
  | cons x xs ih =>
    have hx : x.1 < B := hB x (List.mem_cons_self x xs)
    obtain ⟨A, hsplit, hAgt⟩ := downFrom_split hx
    have ihx := ih (fun p hp => hB p (List.mem_cons_of_mem x hp))
    rw [sortScoredDesc, ihx, hsplit, catMap_append, catMap_append]
    simp only [catMap]
    rw [insertScoredDesc_append]
    · have h₁ : catMap (fun s => xs.filter (fun p => decide (p.1 = s))) A
          = catMap (fun s => (x :: xs).filter (fun p => decide (p.1 = s))) A := by
        refine catMap_congr (fun s hs => ?_)
        have : ¬ x.1 = s := by have := hAgt s hs; omega
        simp [List.filter_cons, this]
      have h₂ : catMap (fun s => xs.filter (fun p => decide (p.1 = s))) (downFrom x.1)
          = catMap (fun s => (x :: xs).filter (fun p => decide (p.1 = s)))
              (downFrom x.1) := by
        refine catMap_congr (fun s hs => ?_)
        have : ¬ x.1 = s := by have := mem_downFrom.mp hs; omega
        simp [List.filter_cons, this]
      have h₃ : (x :: xs).filter (fun p => decide (p.1 = x.1))
          = x :: xs.filter (fun p => decide (p.1 = x.1)) := by
        simp [List.filter_cons]
      rw [h₁, h₂, h₃]
      simp [List.cons_append]
    · intro p hp
      obtain ⟨s, hs, hps⟩ := mem_catMap.mp hp
      have := (List.mem_filter.mp hps).2
      have hps' : p.1 = s := by simpa using this
      have := hAgt s hs
      omega
    · intro p hp
      rcases List.mem_append.mp hp with hp | hp
      · have := (List.mem_filter.mp hp).2
        have : p.1 = x.1 := by simpa using this
        omega
      · obtain ⟨s, hs, hps⟩ := mem_catMap.mp hp
        have := (List.mem_filter.mp hps).2
        have hps' : p.1 = s := by simpa using this
        have := mem_downFrom.mp hs
        omega

/-! ## Lemmas about the scored list of the Retriever -/

theorem mk_reverse_ne {acc : List Char} (ha : acc.isEmpty = false) :
    String.mk acc.reverse ≠ "" := by
  intro hcon
  have hdata : acc.reverse = [] := by
    have := congrArg String.data hcon
    simpa using this
  have : acc = [] := by simpa using hdata
  subst this
  simp at ha

theorem mem_splitWsAux_ne : ∀ (cs acc : List Char) {t : String},
    t ∈ splitWsAux cs acc → t ≠ "" := by
  intro cs
  induction cs with
  | nil =>
    intro acc t h
    by_cases ha : acc.isEmpty
    · simp [splitWsAux, ha] at h
    · simp only [splitWsAux, Bool.not_eq_true] at h
      rw [if_neg ha] at h
      rcases List.mem_singleton.mp h with rfl
      exact mk_reverse_ne (Bool.not_eq_true _ ▸ ha)
  | cons c cs ih =>
    intro acc t h
    rw [splitWsAux] at h
    by_cases hw : c.isWhitespace
    · rw [if_pos hw] at h
      by_cases ha : acc.isEmpty
      · exact ih [] (by rwa [if_pos ha] at h)
      · rw [if_neg ha] at h
        rcases List.mem_cons.mp h with rfl | h
        · exact mk_reverse_ne (Bool.not_eq_true _ ▸ ha)
        · exact ih [] h
    · rw [if_neg hw] at h
      exact ih _ h

theorem mem_qTokens_ne {t query : String} (h : t ∈ qTokens query) : t ≠ "" :=
  mem_splitWsAux_ne query.data [] (List.mem_dedup.mp h)

theorem score_le_length (toks : List String) (d : String) :
    score toks d ≤ toks.length :=
  List.length_filter_le _ _

theorem score_pos_of_match {toks : List String} {t d : String}
    (ht : t ∈ toks) (hne : t ≠ "") (hin : strIn t d = true) :
    0 < score toks d := by
  have hmem : t ∈ toks.filter (fun t => decide (t ≠ "") && strIn t d) :=
    List.mem_filter.mpr ⟨ht, by simp [hne, hin]⟩
  have := List.ne_nil_of_mem hmem
  exact List.length_pos.mpr this

theorem exists_match_of_score_pos {toks : List String} {d : String}
    (h : 0 < score toks d) : ∃ t ∈ toks, strIn t d = true := by
  have hne := List.length_pos.mp h
  obtain ⟨t, ht⟩ := List.exists_mem_of_ne_nil _ hne
  have := List.mem_filter.mp ht
  refine ⟨t, this.1, ?_⟩
  have := this.2
  simp only [Bool.and_eq_true, decide_eq_true_eq] at this
  exact this.2

theorem scored_group (toks : List String) (docs : List String) {s : Nat}
    (hs : s ≠ 0) :
    ((docs.map (fun d => (score toks d, d))).filter
        (fun p => decide (0 < p.1))).filter (fun p => decide (p.1 = s))
      = (docs.filter (fun d => decide (score toks d = s))).map
          (fun d => (score toks d, d)) := by
  induction docs with
  | nil => rfl
  | cons d ds ih =>
    simp only [List.map_cons, List.filter_cons]
    by_cases h2 : score toks d = s
    · have h1 : 0 < score toks d := by omega
      have hs0 : 0 < s := Nat.pos_of_ne_zero hs
      simp [h1, h2, hs0, ih]
    · by_cases h1 : 0 < score toks d
      · simp [h1, h2, ih]
      · simp [h1, h2, ih]

theorem scored_group_zero (toks : List String) (docs : List String) :
    ((docs.map (fun d => (score toks d, d))).filter
        (fun p => decide (0 < p.1))).filter (fun p => decide (p.1 = 0))
      = [] := by
  rw [List.filter_eq_nil_iff]
  intro p hp
  have h := (List.mem_filter.mp hp).2
  simp only [decide_eq_true_eq] at h ⊢
  omega

theorem mem_of_mem_take {α : Type} {a : α} : ∀ {n : Nat} {l : List α},
    a ∈ l.take n → a ∈ l
  | _ + 1, _ :: _, h => by
    rcases List.mem_cons.mp h with rfl | h
    · exact List.mem_cons_self _ _
    · exact List.mem_cons_of_mem _ (mem_of_mem_take h)

theorem simple_keyword_retrieval_eq (docs : List String) (query : String)
    (k : Nat) (hne : docs ≠ []) (hq : query ≠ "")
    (hsc : (docs.map (fun d => (score (qTokens query) d, d))).filter
      (fun p => decide (0 < p.1)) ≠ []) :
    simple_keyword_retrieval docs query k
      = ((sortScoredDesc ((docs.map (fun d => (score (qTokens query) d, d))).filter
          (fun p => decide (0 < p.1)))).take k).map Prod.snd := by
  unfold simple_keyword_retrieval
  rw [if_neg (by simp [hne, hq])]
  exact if_neg hsc

theorem simple_keyword_retrieval_fallback (docs : List String) (query : String)
    (k : Nat) (hne : docs ≠ []) (hq : query ≠ "")
    (hsc : (docs.map (fun d => (score (qTokens query) d, d))).filter
      (fun p => decide (0 < p.1)) = []) :
    simple_keyword_retrieval docs query k = docs.take k := by
  unfold simple_keyword_retrieval
  rw [if_neg (by simp [hne, hq])]
  exact if_pos hsc

/-- C4. For every non-empty document list and every query with at least one
token occurring as a substring of some document, `simple_keyword_retrieval`
returns exactly the spec's selection (`select_spec`): the positive-scoring
documents in descending order of distinct-match count, ties kept in
original document order, truncated to `top_k`; hence its length is at most
`top_k` and every returned document contains at least one query token. -/
theorem claim_retrieval_ranking (docs : List String) (query : String) (k : Nat)
    (hne : docs ≠ [])
    (hmatch : ∃ t ∈ qTokens query, ∃ d ∈ docs, strIn t d = true) :
    simple_keyword_retrieval docs query k = select_spec docs query k
    ∧ (simple_keyword_retrieval docs query k).length ≤ k
    ∧ ∀ d ∈ simple_keyword_retrieval docs query k,
        ∃ t ∈ qTokens query, strIn t d = true := by
  obtain ⟨t, ht, d0, hd0, hin⟩ := hmatch
  have hq : query ≠ "" := by
    intro h
    subst h
    have hq0 : qTokens "" = [] := by decide
    rw [hq0] at ht
    exact absurd ht (List.not_mem_nil t)
  have hpos : 0 < score (qTokens query) d0 :=
    score_pos_of_match ht (mem_qTokens_ne ht) hin
  have hmem : (score (qTokens query) d0, d0)
      ∈ (docs.map (fun d => (score (qTokens query) d, d))).filter
          (fun p => decide (0 < p.1)) :=
    List.mem_filter.mpr ⟨List.mem_map_of_mem _ hd0, by simp [hpos]⟩
  have hscne := List.ne_nil_of_mem hmem
  have hB : ∀ p ∈ (docs.map (fun d => (score (qTokens query) d, d))).filter
      (fun p => decide (0 < p.1)), p.1 < (qTokens query).length + 1 := by
    intro p hp
    obtain ⟨d, _, rfl⟩ := List.mem_map.mp (List.mem_filter.mp hp).1
    have := score_le_length (qTokens query) d
    omega
  have hE := simple_keyword_retrieval_eq docs query k hne hq hscne
  have hgroups : (sortScoredDesc ((docs.map
        (fun d => (score (qTokens query) d, d))).filter
        (fun p => decide (0 < p.1)))).map Prod.snd
      = catMap (fun s => if s = 0 then []
          else docs.filter (fun d => decide (score (qTokens query) d = s)))
          (downFrom ((qTokens query).length + 1)) := by
    rw [sortScoredDesc_grouped _ _ hB, map_catMap]
    refine catMap_congr (fun s hs => ?_)
    by_cases h0 : s = 0
    · subst h0
      rw [scored_group_zero]
      simp
    · rw [scored_group _ _ h0, if_neg h0, List.map_map]
      have hcomp : (Prod.snd ∘ fun d : String => (score (qTokens query) d, d))
          = id := rfl
      rw [hcomp, List.map_id]
  have heq : simple_keyword_retrieval docs query k = select_spec docs query k := by
    rw [hE, List.map_take, hgroups]
    rfl
  refine ⟨heq, ?_, ?_⟩
  · rw [heq]
    unfold select_spec
    simp only [List.length_take]
    omega
  · intro d hd
    rw [heq] at hd
    simp only [select_spec] at hd
    have hd' := mem_of_mem_take hd
    obtain ⟨s, _, hds⟩ := mem_catMap.mp hd'
    by_cases h0 : s = 0
    · subst h0
      simp at hds
    · rw [if_neg h0] at hds
      have hm := List.mem_filter.mp hds
      have hscore : score (qTokens query) d = s := by simpa using hm.2
      exact exists_match_of_score_pos (by omega)

/-- Witness for C4 at a concrete input. -/
theorem claim_retrieval_ranking_witness :
    (["ab", "zz"] ≠ ([] : List String))
    ∧ (∃ t ∈ qTokens "ab zz", ∃ d ∈ ["ab", "zz"], strIn t d = true)
    ∧ (simple_keyword_retrieval ["ab", "zz"] "ab zz" 1
        = select_spec ["ab", "zz"] "ab zz" 1
      ∧ (simple_keyword_retrieval ["ab", "zz"] "ab zz" 1).length ≤ 1
      ∧ ∀ d ∈ simple_keyword_retrieval ["ab", "zz"] "ab zz" 1,
          ∃ t ∈ qTokens "ab zz", strIn t d = true) :=
  ⟨by decide, by decide,
    claim_retrieval_ranking ["ab", "zz"] "ab zz" 1 (by decide) (by decide)⟩

/-- Counterexample to C5 as stated: with the non-empty document list
`["a"]` and an empty query, the claim predicts the first `top_k` documents
(`["a"]`), but `simple_keyword_retrieval` returns `[]`: the code's first
guard returns the empty list for an empty query even when documents
exist. -/
theorem claim_retrieval_fallback_cex :
    simple_keyword_retrieval ["a"] "" 3 ≠ ["a"].take 3 := by
  decide

/-- C5 (amended): when no document has a positive score, the retrieval
returns the first `top_k` documents in original order — except that an
empty document list OR AN EMPTY QUERY always yields the empty list. -/
theorem claim_retrieval_fallback_amended (docs : List String) (query : String)
    (k : Nat) (h : ∀ d ∈ docs, score (qTokens query) d = 0) :
    simple_keyword_retrieval docs query k
      = if docs = [] ∨ query = "" then [] else docs.take k := by
  by_cases hc : docs = [] ∨ query = ""
  · rw [if_pos hc]
    unfold simple_keyword_retrieval
    rw [if_pos hc]
  · rw [if_neg hc]
    push_neg at hc
    refine simple_keyword_retrieval_fallback docs query k hc.1 hc.2 ?_
    rw [List.filter_eq_nil_iff]
    intro p hp
    obtain ⟨d, hd, rfl⟩ := List.mem_map.mp hp
    simp [h d hd]

/-- Witness for C5 (amended) at concrete inputs on both branches. -/
theorem claim_retrieval_fallback_amended_witness :
    (∀ d ∈ ["x", "y"], score (qTokens "q") d = 0)
    ∧ simple_keyword_retrieval ["x", "y"] "q" 1
        = if ["x", "y"] = ([] : List String) ∨ "q" = "" then [] else ["x", "y"].take 1 :=
  ⟨by decide, claim_retrieval_fallback_amended ["x", "y"] "q" 1 (by decide)⟩

/-! ## Knowledge-base construction (C6) -/

theorem foldl_append_catMap {α β : Type} (g : α → List β) (l : List α) :
    ∀ acc : List β, l.foldl (fun acc a => acc ++ g a) acc = acc ++ catMap g l := by
  induction l with
  | nil => intro acc; simp [catMap]
  | cons a l ih => intro acc; simp [catMap, ih, List.append_assoc]

/-- The per-file body of the `load_text_files_from_folder` loop appends
exactly the `docsOfEntry` contribution of the file. -/
theorem load_body_eq :
    (fun (docs : List String) (f : FileEntry) =>
      if pyLower (splitext_ext f.fname) ∈ exts then
        match f.readResult with
        | Except.ok raw =>
          if pyStrip raw = "" then docs
          else docs ++ ["【文件：" ++ f.fname ++ "】\n" ++ pyStrip raw]
        | Except.error e => docs ++ ["【读取失败：" ++ f.full_path ++ "】" ++ e]
      else docs)
    = fun docs f => docs ++ docsOfEntry f := by
  funext docs f
  unfold docsOfEntry
  by_cases he : pyLower (splitext_ext f.fname) ∈ exts
  · rw [if_pos he, if_pos he]
    cases hr : f.readResult with
    | ok raw =>
      by_cases ht : pyStrip raw = "" <;> simp [ht]
    | error e => rfl
  · simp [he]

theorem load_eq_catMap (fs : FS) (p : String) :
    load_text_files_from_folder fs p
      = if p = "" then []
        else if (fs p).isDir then catMap docsOfEntry (fs p).files
        else [] := by
  unfold load_text_files_from_folder
  by_cases hp : p = ""
  · simp [hp]
  · rw [if_neg hp, if_neg hp]
    by_cases hd : (fs p).isDir
    · rw [if_pos hd, if_pos hd, load_body_eq, foldl_append_catMap]
      rfl
    · rw [if_neg hd, if_neg hd]

/-- Counterexample to C6 as stated: a knowledge folder holding exactly one
file with a recognized extension (`a.txt`), which reads successfully but
whose content is whitespace only, yields zero Documents, while the claim
("one Document per such file") predicts exactly one. -/
theorem claim_knowledge_build_cex :
    (Agent.init fsBlankFile cfgFolderOnly).docs = []
    ∧ pyLower (splitext_ext "a.txt") ∈ exts
    ∧ (fsBlankFile "/kb").isDir = true
    ∧ (fsBlankFile "/kb").files.length = 1 := by
  decide

/-- C6 (amended): the knowledge base is built at construction in fixed
order — the inline knowledge text, if non-empty, is exactly one Document
placed first; then, when the mode is the folder mode and a folder path is
given, one Document per recognized walked file WHOSE STRIPPED CONTENT IS
NON-EMPTY, tagged with its filename, a visible failure-notice Document
substituted for any file that fails to read (`docsOfEntry`); a missing
directory or an empty walk yields zero folder Documents and no error. -/
theorem claim_knowledge_build_amended (fs : FS) (config : AgentConfig) :
    (Agent.init fs config).docs
      = (if config.knowledge = "" then [] else [config.knowledge])
        ++ (if config.knowledge_mode = "folder" ∧ config.knowledge_folder ≠ ""
            then load_text_files_from_folder fs config.knowledge_folder
            else [])
    ∧ load_text_files_from_folder fs config.knowledge_folder
        = (if config.knowledge_folder = "" then []
           else if (fs config.knowledge_folder).isDir
           then catMap docsOfEntry (fs config.knowledge_folder).files
           else []) := by
  constructor
  · unfold Agent.init
    by_cases hm : config.knowledge_mode = "folder" ∧ config.knowledge_folder ≠ ""
    · simp [hm]
    · simp [hm]
  · exact load_eq_catMap fs config.knowledge_folder

/-! ## Lemmas about one agent turn -/

theorem act_snd (llm : LLM) (a : Agent) (ctx : String) :
    (Agent.act llm a ctx).2
      = { a with history := a.history ++ [⟨"assistant", (Agent.act llm a ctx).1⟩] } :=
  rfl

theorem act_config (llm : LLM) (a : Agent) (ctx : String) :
    (Agent.act llm a ctx).2.config = a.config := rfl

theorem act_docs (llm : LLM) (a : Agent) (ctx : String) :
    (Agent.act llm a ctx).2.docs = a.docs := rfl

theorem act_history (llm : LLM) (a : Agent) (ctx : String) :
    (Agent.act llm a ctx).2.history
      = a.history ++ [⟨"assistant", (Agent.act llm a ctx).1⟩] := rfl

theorem act_reply_shape (llm : LLM)
    (hf : ∀ msgs, ∃ e, llm msgs = Except.error e) (a : Agent) (ctx : String) :
    ∃ e, (Agent.act llm a ctx).1 = "[LLM 调用出错：" ++ e ++ "]" := by
  have hx : ∃ msgs, (Agent.act llm a ctx).1 = call_llm llm msgs := ⟨_, rfl⟩
  obtain ⟨msgs, hm⟩ := hx
  obtain ⟨e, he⟩ := hf msgs
  refine ⟨e, ?_⟩
  rw [hm]
  unfold call_llm
  rw [he]

/-! ## Lemmas about the round-robin loops -/

theorem runAgents_log_proj (llm : LLM) (t : Nat) :
    ∀ (as done : List Agent) (log : List Msg) (ctx : String),
      ((runAgents llm t as (done, log, ctx)).2.1).map projTS
        = log.map projTS ++ as.map (fun a => (t, a.config.name)) := by
  intro as
  induction as with
  | nil => intro done log ctx; simp [runAgents]
  | cons a rest ih =>
    intro done log ctx
    simp only [runAgents]
    rw [ih]
    simp [projTS]

theorem runAgents_agents_map {γ : Type} (llm : LLM) (t : Nat) (g : Agent → γ)
    (u : γ → γ) (hg : ∀ a ctx, g (Agent.act llm a ctx).2 = u (g a)) :
    ∀ (as done : List Agent) (log : List Msg) (ctx : String),
      ((runAgents llm t as (done, log, ctx)).1).map g
        = done.map g ++ as.map (fun a => u (g a)) := by
  intro as
  induction as with
  | nil => intro done log ctx; simp [runAgents]
  | cons a rest ih =>
    intro done log ctx
    simp only [runAgents]
    rw [ih]
    simp [hg]

theorem roundRobin_length (names : List String) :
    ∀ (n t0 : Nat), (roundRobin names t0 n).length = n * names.length := by
  intro n
  induction n with
  | zero => intro t0; simp [roundRobin]
  | succ n ih =>
    intro t0
    simp [roundRobin, ih]
    ring

theorem runRounds_log_proj (llm : LLM) :
    ∀ (n t0 : Nat) (as : List Agent) (log : List Msg) (ctx : String),
      ((runRounds llm t0 n (as, log, ctx)).2.1).map projTS
        = log.map projTS ++ roundRobin (as.map (fun a => a.config.name)) t0 n := by
  intro n
  induction n with
  | zero => intro t0 as log ctx; simp [runRounds, roundRobin]
  | succ n ih =>
    intro t0 as log ctx
    simp only [runRounds]
    have hst : runAgents llm t0 as ([], log, ctx)
        = ((runAgents llm t0 as ([], log, ctx)).1,
           (runAgents llm t0 as ([], log, ctx)).2.1,
           (runAgents llm t0 as ([], log, ctx)).2.2) := rfl
    rw [hst, ih]
    rw [runAgents_log_proj]
    have hnames : ((runAgents llm t0 as ([], log, ctx)).1).map
        (fun a => a.config.name) = as.map (fun a => a.config.name) := by
      rw [runAgents_agents_map llm t0 (fun a => a.config.name) id
        (fun a ctx => rfl)]
      simp
    rw [hnames]
    simp [roundRobin, List.append_assoc]

theorem runRounds_agents_pres {γ : Type} (llm : LLM) (g : Agent → γ)
    (hg : ∀ a ctx, g (Agent.act llm a ctx).2 = g a) :
    ∀ (n t0 : Nat) (as : List Agent) (log : List Msg) (ctx : String),
      ((runRounds llm t0 n (as, log, ctx)).1).map g = as.map g := by
  intro n
  induction n with
  | zero => intro t0 as log ctx; simp [runRounds]
  | succ n ih =>
    intro t0 as log ctx
    simp only [runRounds]
    have hst : runAgents llm t0 as ([], log, ctx)
        = ((runAgents llm t0 as ([], log, ctx)).1,
           (runAgents llm t0 as ([], log, ctx)).2.1,
           (runAgents llm t0 as ([], log, ctx)).2.2) := rfl
    rw [hst, ih]
    rw [runAgents_agents_map llm t0 g id (fun a ctx => hg a ctx)]
    simp

/-- C2. The §8 scenario: `turns=2`, agents "A" and "B" with trivial
configs, against a stub that echoes its last input, streams exactly the
message records (1,"A"), (1,"B"), (2,"A"), (2,"B") followed by a done
marker with `total_messages = 4`; and in general the emitted records
follow fixed round-robin order (rounds numbered from 1) over the original
agent order. -/
theorem claim_round_robin_order :
    ((simulate_stream fsEmpty echoLLM reqAB).map (fun evs => evs.map eventShape)
      = Except.ok [Sum.inl (1, "A"), Sum.inl (1, "B"), Sum.inl (2, "A"),
          Sum.inl (2, "B"), Sum.inr (Sum.inl 4)])
    ∧ ∀ (llm : LLM) (scenario : String) (turns : Int) (agents : List Agent),
        ((generate llm scenario turns agents).2.2.1).map projTS
          = roundRobin (agents.map (fun a => a.config.name)) 1 turns.toNat := by
  constructor
  · decide
  · intro llm scenario turns agents
    show ((runRounds llm 1 turns.toNat
        (agents, [], scenarioLine scenario)).2.1).map projTS = _
    rw [runRounds_log_proj]
    simp

theorem map_append_hist (l : List Agent) (X : List String) :
    l.map (fun a => a.history.map Message.role ++ X)
      = (l.map (fun a => a.history.map Message.role)).map (fun h => h ++ X) := by
  induction l with
  | nil => rfl
  | cons a l ih => simp [ih]

/-- C8. Each `act` appends exactly its own reply, role-tagged
"assistant", to the acting agent's history before returning; after `K`
successive `act` calls an agent's history is its initial history followed
by its `K` replies in chronological order; and over a whole simulation
run every agent's history grows by exactly one "assistant" entry per
round, regardless of the other agents. -/
theorem claim_agent_history (llm : LLM) :
    (∀ (a : Agent) (cs : List String),
      (actSeq llm a cs).1.history
        = a.history ++ (actSeq llm a cs).2.map (fun r => Message.mk "assistant" r)
      ∧ (actSeq llm a cs).2.length = cs.length)
    ∧ ∀ (t0 n : Nat) (as : List Agent) (log : List Msg) (ctx : String),
        ((runRounds llm t0 n (as, log, ctx)).1).map
            (fun a => a.history.map Message.role)
          = as.map (fun a => a.history.map Message.role
              ++ List.replicate n "assistant") := by
  constructor
  · intro a cs
    induction cs generalizing a with
    | nil => simp [actSeq]
    | cons c cs ih =>
      simp only [actSeq]
      obtain ⟨ih1, ih2⟩ := ih (Agent.act llm a c).2
      constructor
      · rw [ih1, act_history]
        simp
      · simp [ih2]
  · intro t0 n
    induction n generalizing t0 with
    | zero => intro as log ctx; simp [runRounds]
    | succ n ih =>
      intro as log ctx
      simp only [runRounds]
      have hst : runAgents llm t0 as ([], log, ctx)
          = ((runAgents llm t0 as ([], log, ctx)).1,
             (runAgents llm t0 as ([], log, ctx)).2.1,
             (runAgents llm t0 as ([], log, ctx)).2.2) := rfl
      rw [hst, ih]
      rw [map_append_hist]
      rw [runAgents_agents_map llm t0 (fun a => a.history.map Message.role)
        (fun h => h ++ ["assistant"])
        (fun a ctx => by simp [act_history])]
      simp [List.map_map, Function.comp, List.append_assoc, List.replicate_succ]

/-- C9. Frame property of a turn: `act` changes nothing of the agent but
its own history (its config and docs are untouched, and the only change
is one appended entry); and over a whole run the orchestrator never
changes any agent's config or document list. -/
theorem claim_act_frame (llm : LLM) :
    (∀ (a : Agent) (ctx : String),
      (Agent.act llm a ctx).2
        = { a with history := a.history
            ++ [⟨"assistant", (Agent.act llm a ctx).1⟩] })
    ∧ ∀ (t0 n : Nat) (as : List Agent) (log : List Msg) (ctx : String),
        ((runRounds llm t0 n (as, log, ctx)).1).map (fun a => (a.config, a.docs))
          = as.map (fun a => (a.config, a.docs)) := by
  constructor
  · intro a ctx
    rfl
  · intro t0 n as log ctx
    exact runRounds_agents_pres llm (fun a => (a.config, a.docs))
      (fun a ctx => rfl) n t0 as log ctx

/-! ## Failure containment (C3) -/

theorem runAgents_log_content (llm : LLM) (t : Nat)
    (hf : ∀ msgs, ∃ e, llm msgs = Except.error e) :
    ∀ (as done : List Agent) (log : List Msg) (ctx : String),
      ∀ m ∈ (runAgents llm t as (done, log, ctx)).2.1,
        m ∈ log ∨ ∃ e, m.content = "[LLM 调用出错：" ++ e ++ "]" := by
  intro as
  induction as with
  | nil =>
    intro done log ctx m hm
    exact Or.inl hm
  | cons a rest ih =>
    intro done log ctx m hm
    simp only [runAgents] at hm
    rcases ih _ _ _ m hm with hmem | hshape
    · rcases List.mem_append.mp hmem with hl | hmsg
      · exact Or.inl hl
      · rcases List.mem_singleton.mp hmsg with rfl
        exact Or.inr (act_reply_shape llm hf a ctx)
    · exact Or.inr hshape

theorem runRounds_log_content (llm : LLM)
    (hf : ∀ msgs, ∃ e, llm msgs = Except.error e) :
    ∀ (n t0 : Nat) (as : List Agent) (log : List Msg) (ctx : String),
      ∀ m ∈ (runRounds llm t0 n (as, log, ctx)).2.1,
        m ∈ log ∨ ∃ e, m.content = "[LLM 调用出错：" ++ e ++ "]" := by
  intro n
  induction n with
  | zero =>
    intro t0 as log ctx m hm
    exact Or.inl hm
  | succ n ih =>
    intro t0 as log ctx m hm
    simp only [runRounds] at hm
    have hst : runAgents llm t0 as ([], log, ctx)
        = ((runAgents llm t0 as ([], log, ctx)).1,
           (runAgents llm t0 as ([], log, ctx)).2.1,
           (runAgents llm t0 as ([], log, ctx)).2.2) := rfl
    rw [hst] at hm
    rcases ih _ _ _ _ m hm with hmem | hshape
    · exact runAgents_log_content llm t0 hf as [] log ctx m hmem
    · exact Or.inr hshape

/-- C3. When the text-generation call fails on every invocation, no
exception escapes: the run still emits exactly `turns × agentCount`
records, every record's content is the visible `[LLM 调用出错：...]`
failure notice, and the stream ends with a normal done marker (carrying
that same count), not an error marker. -/
theorem claim_llm_failure_contained (llm : LLM) (scenario : String)
    (turns : Int) (agents : List Agent)
    (hf : ∀ msgs, ∃ e, llm msgs = Except.error e) :
    ((generate llm scenario turns agents).2.2.1).length
        = turns.toNat * agents.length
    ∧ (∀ m ∈ (generate llm scenario turns agents).2.2.1,
        ∃ e, m.content = "[LLM 调用出错：" ++ e ++ "]")
    ∧ (generate llm scenario turns agents).1
        = ((generate llm scenario turns agents).2.2.1).map Event.message
          ++ [Event.done (turns.toNat * agents.length)] := by
  have hlen : ((generate llm scenario turns agents).2.2.1).length
      = turns.toNat * agents.length := by
    have h := congrArg List.length (runRounds_log_proj llm turns.toNat 1
      agents [] (scenarioLine scenario))
    simp only [List.length_map, List.length_append, List.length_nil] at h
    rw [roundRobin_length] at h
    simpa [List.length_map] using h
  refine ⟨hlen, ?_, ?_⟩
  · intro m hm
    rcases runRounds_log_content llm hf turns.toNat 1 agents []
      (scenarioLine scenario) m hm with hmem | hshape
    · exact absurd hmem (List.not_mem_nil m)
    · exact hshape
  · show ((generate llm scenario turns agents).2.2.1).map Event.message
        ++ [Event.done ((generate llm scenario turns agents).2.2.1).length] = _
    rw [hlen]

/-- Witness for C3: one round, one trivial agent, an always-failing stub. -/
theorem claim_llm_failure_contained_witness :
    (∀ msgs, ∃ e, failingLLM msgs = Except.error e)
    ∧ (((generate failingLLM "" 1 [agentA]).2.2.1).length = (1 : Int).toNat * 1
      ∧ (∀ m ∈ (generate failingLLM "" 1 [agentA]).2.2.1,
          ∃ e, m.content = "[LLM 调用出错：" ++ e ++ "]")
      ∧ (generate failingLLM "" 1 [agentA]).1
          = ((generate failingLLM "" 1 [agentA]).2.2.1).map Event.message
            ++ [Event.done ((1 : Int).toNat * 1)]) :=
  ⟨fun msgs => ⟨"APIConnectionError('Connection error.')", rfl⟩,
    by
      have h := claim_llm_failure_contained failingLLM "" 1 [agentA]
        (fun msgs => ⟨"APIConnectionError('Connection error.')", rfl⟩)
      simpa using h⟩

/-! ## Agent validation (C7) and non-positive turn counts (C10) -/

theorem build_agents_eq (fs : FS) :
    ∀ l : List AgentData,
      build_agents_from_request fs l
        = (l.filter (fun a => decide (pyStrip a.name ≠ ""))).map
            (fun a => Agent.init fs (cfgOfData a)) := by
  intro l
  induction l with
  | nil => rfl
  | cons a rest ih =>
    by_cases h : pyStrip a.name = ""
    · simp [build_agents_from_request, h, ih]
    · simp [build_agents_from_request, h, ih, cfgOfData]

/-- C7. When every posted agent config has an empty (after stripping)
name, `/simulate_stream` fails with the InvalidInput error before any
simulation work and emits zero records; an empty-name entry is merely
skipped (the built agents are exactly those of the valid entries, in
order), and a request keeping at least one valid entry is not rejected. -/
theorem claim_invalid_agents (fs : FS) (llm : LLM) (data : SimRequest) :
    ((∀ a ∈ data.agents, pyStrip a.name = "") →
      simulate_stream fs llm data = Except.error "No valid agents provided.")
    ∧ build_agents_from_request fs data.agents
        = (data.agents.filter (fun a => decide (pyStrip a.name ≠ ""))).map
            (fun a => Agent.init fs (cfgOfData a))
    ∧ ((∃ a ∈ data.agents, pyStrip a.name ≠ "") →
        ∃ evs, simulate_stream fs llm data = Except.ok evs) := by
  refine ⟨?_, build_agents_eq fs data.agents, ?_⟩
  · intro h
    have hb : build_agents_from_request fs data.agents = [] := by
      rw [build_agents_eq]
      have : data.agents.filter (fun a => decide (pyStrip a.name ≠ "")) = [] := by
        rw [List.filter_eq_nil_iff]
        intro a ha
        simp [h a ha]
      rw [this]
      rfl
    unfold simulate_stream
    rw [hb]
    rfl
  · intro ⟨a, ha, hne⟩
    have hb : build_agents_from_request fs data.agents ≠ [] := by
      rw [build_agents_eq]
      have hmem : a ∈ data.agents.filter (fun a => decide (pyStrip a.name ≠ "")) :=
        List.mem_filter.mpr ⟨ha, by simp [hne]⟩
      intro hcon
      rw [List.map_eq_nil_iff] at hcon
      rw [hcon] at hmem
      exact List.not_mem_nil a hmem
    unfold simulate_stream
    rw [if_neg hb]
    exact ⟨_, rfl⟩

/-- Witness for C7: an all-invalid request is rejected; a request with one
invalid and one valid entry is accepted. -/
theorem claim_invalid_agents_witness :
    simulate_stream fsEmpty echoLLM
        { scenario := "", turns := 1, agents := [{ name := " " }] }
      = Except.error "No valid agents provided."
    ∧ ∃ evs, simulate_stream fsEmpty echoLLM
        { scenario := "", turns := 0, agents := [{ name := "" }, { name := "A" }] }
      = Except.ok evs :=
  ⟨(claim_invalid_agents fsEmpty echoLLM _).1 (by decide),
   (claim_invalid_agents fsEmpty echoLLM _).2.2 ⟨{ name := "A" }, by decide, by decide⟩⟩

/-- C10. A request with `turns ≤ 0` and at least one valid agent config
does not fail: the stream is just a done marker with
`total_messages = 0` (Python `range` of a non-positive count is empty). -/
theorem claim_nonpositive_turns (fs : FS) (llm : LLM) (data : SimRequest)
    (h1 : data.turns ≤ 0)
    (h2 : ∃ a ∈ data.agents, pyStrip a.name ≠ "") :
    simulate_stream fs llm data = Except.ok [Event.done 0] := by
  obtain ⟨a, ha, hne⟩ := h2
  have hb : build_agents_from_request fs data.agents ≠ [] := by
    rw [build_agents_eq]
    have hmem : a ∈ data.agents.filter (fun a => decide (pyStrip a.name ≠ "")) :=
      List.mem_filter.mpr ⟨ha, by simp [hne]⟩
    intro hcon
    rw [List.map_eq_nil_iff] at hcon
    rw [hcon] at hmem
    exact List.not_mem_nil a hmem
  unfold simulate_stream
  rw [if_neg hb]
  unfold generate
  rw [Int.toNat_of_nonpos h1]
  rfl

/-- Witness for C10: `turns = -3` with one valid agent yields
`[done 0]`. -/
theorem claim_nonpositive_turns_witness :
    ((-3 : Int) ≤ 0)
    ∧ (∃ a ∈ [({ name := "A" } : AgentData)], pyStrip a.name ≠ "")
    ∧ simulate_stream fsEmpty echoLLM
        { scenario := "", turns := -3, agents := [{ name := "A" }] }
      = Except.ok [Event.done 0] :=
  ⟨by decide, ⟨{ name := "A" }, by decide, by decide⟩,
    claim_nonpositive_turns fsEmpty echoLLM _ (by decide)
      ⟨{ name := "A" }, by decide, by decide⟩⟩

/-! ## Append-only GlobalContext (C1) -/

theorem ctxEntries_append_single (l : List Msg) (m : Msg) :
    ctxEntries (l ++ [m]) = ctxEntries l ++ fmtEntry m := by
  induction l with
  | nil => simp [ctxEntries]
  | cons x l ih => simp [ctxEntries, ih, String.append_assoc]

theorem runAgentsI_proj (llm : LLM) (t : Nat) :
    ∀ (as done : List Agent) (log : List Msg) (ctx : String) (seen : List String),
      ((runAgentsI llm t as (done, log, ctx, seen)).1,
       (runAgentsI llm t as (done, log, ctx, seen)).2.1,
       (runAgentsI llm t as (done, log, ctx, seen)).2.2.1)
        = runAgents llm t as (done, log, ctx) := by
  intro as
  induction as with
  | nil => intro done log ctx seen; rfl
  | cons a rest ih =>
    intro done log ctx seen
    simp only [runAgentsI, runAgents]
    exact ih _ _ _ _

theorem runRoundsI_proj (llm : LLM) :
    ∀ (n t0 : Nat) (as : List Agent) (log : List Msg) (ctx : String)
      (seen : List String),
      ((runRoundsI llm t0 n (as, log, ctx, seen)).1,
       (runRoundsI llm t0 n (as, log, ctx, seen)).2.1,
       (runRoundsI llm t0 n (as, log, ctx, seen)).2.2.1)
        = runRounds llm t0 n (as, log, ctx) := by
  intro n
  induction n with
  | zero => intro t0 as log ctx seen; rfl
  | succ n ih =>
    intro t0 as log ctx seen
    simp only [runRoundsI, runRounds]
    have hI : runAgentsI llm t0 as ([], log, ctx, seen)
        = ((runAgentsI llm t0 as ([], log, ctx, seen)).1,
           (runAgentsI llm t0 as ([], log, ctx, seen)).2.1,
           (runAgentsI llm t0 as ([], log, ctx, seen)).2.2.1,
           (runAgentsI llm t0 as ([], log, ctx, seen)).2.2.2) := rfl
    rw [hI, ih]
    rw [runAgentsI_proj]

theorem runAgentsI_inv (llm : LLM) (t : Nat) (gc : String) :
    ∀ (as done : List Agent) (log : List Msg) (ctx : String) (seen : List String),
      ctx = gc ++ ctxEntries log →
      seen = (List.range log.length).map (fun i => gc ++ ctxEntries (log.take i)) →
      ((runAgentsI llm t as (done, log, ctx, seen)).2.2.1
          = gc ++ ctxEntries (runAgentsI llm t as (done, log, ctx, seen)).2.1
        ∧ (runAgentsI llm t as (done, log, ctx, seen)).2.2.2
          = (List.range (runAgentsI llm t as (done, log, ctx, seen)).2.1.length).map
              (fun i => gc ++ ctxEntries
                ((runAgentsI llm t as (done, log, ctx, seen)).2.1.take i))) := by
  intro as
  induction as with
  | nil =>
    intro done log ctx seen hctx hseen
    exact ⟨hctx, hseen⟩
  | cons a rest ih =>
    intro done log ctx seen hctx hseen
    subst hctx
    subst hseen
    simp only [runAgentsI]
    apply ih
    · rw [String.append_assoc, ← ctxEntries_append_single]
    · have hlen : (log ++ [(⟨t, a.config.name,
          (Agent.act llm a (gc ++ ctxEntries log)).1⟩ : Msg)]).length
          = log.length + 1 := by simp
      rw [hlen, List.range_succ, List.map_append]
      congr 1
      · apply List.map_congr_left
        intro i hi
        have hilt : i < log.length := List.mem_range.mp hi
        rw [List.take_append_of_le_length (Nat.le_of_lt hilt)]
      · simp only [List.map_cons, List.map_nil]
        rw [List.take_left]

theorem runRoundsI_inv (llm : LLM) (gc : String) :
    ∀ (n t0 : Nat) (as : List Agent) (log : List Msg) (ctx : String)
      (seen : List String),
      ctx = gc ++ ctxEntries log →
      seen = (List.range log.length).map (fun i => gc ++ ctxEntries (log.take i)) →
      ((runRoundsI llm t0 n (as, log, ctx, seen)).2.2.1
          = gc ++ ctxEntries (runRoundsI llm t0 n (as, log, ctx, seen)).2.1
        ∧ (runRoundsI llm t0 n (as, log, ctx, seen)).2.2.2
          = (List.range (runRoundsI llm t0 n (as, log, ctx, seen)).2.1.length).map
              (fun i => gc ++ ctxEntries
                ((runRoundsI llm t0 n (as, log, ctx, seen)).2.1.take i))) := by
  intro n
  induction n with
  | zero =>
    intro t0 as log ctx seen hctx hseen
    exact ⟨hctx, hseen⟩
  | succ n ih =>
    intro t0 as log ctx seen hctx hseen
    simp only [runRoundsI]
    have hI : runAgentsI llm t0 as ([], log, ctx, seen)
        = ((runAgentsI llm t0 as ([], log, ctx, seen)).1,
           (runAgentsI llm t0 as ([], log, ctx, seen)).2.1,
           (runAgentsI llm t0 as ([], log, ctx, seen)).2.2.1,
           (runAgentsI llm t0 as ([], log, ctx, seen)).2.2.2) := rfl
    rw [hI]
    obtain ⟨h1, h2⟩ := runAgentsI_inv llm t0 gc as [] log ctx seen hctx hseen
    exact ih _ _ _ _ _ h1 h2

/-- C1. The GlobalContext is append-only: for every run, (i) the
uninstrumented loop is the projection of the instrumented one, (ii) the
final `global_context` is exactly the formatted scenario line followed by
the formatted entries of all emitted records in order, and (iii) the
context passed to the i-th `act` call of the run is exactly the scenario
line followed by the formatted entries of the strictly prior records —
so each entry is appended before the next agent acts and appended text is
never removed or edited. -/
theorem claim_global_context_append_only (llm : LLM) (scenario : String)
    (turns : Int) (agents : List Agent) :
    (runRounds llm 1 turns.toNat (agents, [], scenarioLine scenario)
      = ((runRoundsI llm 1 turns.toNat
            (agents, [], scenarioLine scenario, [])).1,
         (runRoundsI llm 1 turns.toNat
            (agents, [], scenarioLine scenario, [])).2.1,
         (runRoundsI llm 1 turns.toNat
            (agents, [], scenarioLine scenario, [])).2.2.1))
    ∧ (runRoundsI llm 1 turns.toNat (agents, [], scenarioLine scenario, [])).2.2.1
        = scenarioLine scenario
          ++ ctxEntries (runRoundsI llm 1 turns.toNat
              (agents, [], scenarioLine scenario, [])).2.1
    ∧ (runRoundsI llm 1 turns.toNat (agents, [], scenarioLine scenario, [])).2.2.2
        = (List.range (runRoundsI llm 1 turns.toNat
            (agents, [], scenarioLine scenario, [])).2.1.length).map
            (fun i => scenarioLine scenario
              ++ ctxEntries ((runRoundsI llm 1 turns.toNat
                  (agents, [], scenarioLine scenario, [])).2.1.take i)) := by
  have hctx : scenarioLine scenario = scenarioLine scenario ++ ctxEntries [] := by
    show scenarioLine scenario = scenarioLine scenario ++ ""
    exact (String.append_empty _).symm
  have hseen : ([] : List String)
      = (List.range ([] : List Msg).length).map
          (fun i => scenarioLine scenario ++ ctxEntries (([] : List Msg).take i)) :=
    rfl
  obtain ⟨h1, h2⟩ := runRoundsI_inv llm (scenarioLine scenario) turns.toNat 1
    agents [] (scenarioLine scenario) [] hctx hseen
  exact ⟨(runRoundsI_proj llm turns.toNat 1 agents []
    (scenarioLine scenario) []).symm, h1, h2⟩
